import Mathlib

/-!
Verification of the EUI-48 MAC address library (`src/lib.rs`).

The Rust code is shallowly embedded: the 6-byte buffer `Eui48 = [u8; 6]`
becomes a list of byte values, strings become lists of characters, and
`u8` arithmetic is `Nat` arithmetic reduced modulo 256 at every write.
Rust's `str::len` counts UTF-8 bytes, so the embedded parser measures
input length with `utf8Len` (the sum of each character's UTF-8 size)
while character offsets, as in `s.chars().enumerate()`, count characters.
-/

/-- Length of an EUI-48 buffer (`EUI48LEN` in the source). -/
def EUI48LEN : Nat := 6

/-- The MAC address record: `struct MacAddress { eui: Eui48 }`.
The six `u8` entries are modelled as natural numbers below 256. -/
structure MacAddress where
  eui : List Nat
deriving DecidableEq, Repr

/-- The error enum `ParseError` with its two payload-carrying cases. -/
inductive ParseError where
  | InvalidLength : Nat → ParseError
  | InvalidCharacter : Char → Nat → ParseError
deriving DecidableEq, Repr

/-- Constructor `MacAddress::new(eui)`. -/
def MacAddress.new (eui : List Nat) : MacAddress := ⟨eui⟩

/-- Constant `MacAddress::nil()`: all bytes zero. -/
def MacAddress.nilAddr : MacAddress := ⟨List.replicate EUI48LEN 0⟩

/-- Constant `MacAddress::broadcast()`: all bytes 0xFF. -/
def MacAddress.broadcast : MacAddress := ⟨List.replicate EUI48LEN 0xFF⟩

/-- Predicate `is_nil`: every byte is zero. -/
def MacAddress.is_nil (m : MacAddress) : Bool := m.eui.all (fun b => b == 0)

/-- Predicate `is_broadcast`: every byte is 0xFF. -/
def MacAddress.is_broadcast (m : MacAddress) : Bool := m.eui.all (fun b => b == 0xFF)

/-- Predicate `is_unicast`, exactly as written in the source:
`self.eui[0] & 0 == 0` (note the mask is the constant 0 there). -/
def MacAddress.is_unicast (m : MacAddress) : Bool := (m.eui.getD 0 0) &&& 0 == 0

/-- Predicate `is_multicast`: `self.eui[0] & 1 != 0`. -/
def MacAddress.is_multicast (m : MacAddress) : Bool := (m.eui.getD 0 0) &&& 1 != 0

/-- Predicate `is_universal`: `self.eui[0] & 1 << 1 == 0`. -/
def MacAddress.is_universal (m : MacAddress) : Bool :=
  (m.eui.getD 0 0) &&& (1 <<< 1) == 0

/-- Predicate `is_local`: `self.eui[0] & 1 << 1 != 0`. -/
def MacAddress.is_local (m : MacAddress) : Bool :=
  (m.eui.getD 0 0) &&& (1 <<< 1) != 0

/-- Lowercase hexadecimal digit character for a value below 16,
as produced by Rust's `{:02x}` formatting. -/
def hexDigitChar (n : Nat) : Char :=
  if n < 10 then Char.ofNat ('0'.toNat + n) else Char.ofNat ('a'.toNat + (n - 10))

/-- Rendering of one `u8` by `{:02x}`: exactly two lowercase hex digits,
zero padded (for byte values below 256). -/
def byteToHex (b : Nat) : List Char :=
  [hexDigitChar (b / 16), hexDigitChar (b % 16)]

/-- Formatter `to_canonical`: `xx-xx-xx-xx-xx-xx`. -/
def MacAddress.to_canonical (m : MacAddress) : List Char :=
  byteToHex (m.eui.getD 0 0) ++ '-' :: byteToHex (m.eui.getD 1 0) ++ '-' ::
  byteToHex (m.eui.getD 2 0) ++ '-' :: byteToHex (m.eui.getD 3 0) ++ '-' ::
  byteToHex (m.eui.getD 4 0) ++ '-' :: byteToHex (m.eui.getD 5 0)

/-- Formatter `to_hex_string`: `xx:xx:xx:xx:xx:xx`. -/
def MacAddress.to_hex_string (m : MacAddress) : List Char :=
  byteToHex (m.eui.getD 0 0) ++ ':' :: byteToHex (m.eui.getD 1 0) ++ ':' ::
  byteToHex (m.eui.getD 2 0) ++ ':' :: byteToHex (m.eui.getD 3 0) ++ ':' ::
  byteToHex (m.eui.getD 4 0) ++ ':' :: byteToHex (m.eui.getD 5 0)

/-- Formatter `to_dot_string`: `xxxx.xxxx.xxxx`. -/
def MacAddress.to_dot_string (m : MacAddress) : List Char :=
  byteToHex (m.eui.getD 0 0) ++ byteToHex (m.eui.getD 1 0) ++ '.' ::
  byteToHex (m.eui.getD 2 0) ++ byteToHex (m.eui.getD 3 0) ++ '.' ::
  byteToHex (m.eui.getD 4 0) ++ byteToHex (m.eui.getD 5 0)

/-- Formatter `to_hexadecimal`: `0x` followed by 12 lowercase hex digits. -/
def MacAddress.to_hexadecimal (m : MacAddress) : List Char :=
  '0' :: 'x' :: byteToHex (m.eui.getD 0 0) ++ byteToHex (m.eui.getD 1 0) ++
  byteToHex (m.eui.getD 2 0) ++ byteToHex (m.eui.getD 3 0) ++
  byteToHex (m.eui.getD 4 0) ++ byteToHex (m.eui.getD 5 0)

/-- The Rust pattern `'0'...'9' | 'a'...'f' | 'A'...'F'` on a character. -/
def isHexDigit (c : Char) : Bool :=
  ('0' ≤ c && c ≤ '9') || ('a' ≤ c && c ≤ 'f') || ('A' ≤ c && c ≤ 'F')

/-- The Rust pattern `'-' | ':' | '.'` on a character. -/
def isSep (c : Char) : Bool := c == '-' || c == ':' || c == '.'

/-- A lowercase hexadecimal digit character (the output alphabet of the
formatters, apart from their fixed separators and prefix). -/
def isLowerHexChar (c : Char) : Bool :=
  ('0' ≤ c && c ≤ '9') || ('a' ≤ c && c ≤ 'f')

/-- Value of a hex digit character, `c.to_digit(16)` on the characters
matched by `isHexDigit`. -/
def toDigit16 (c : Char) : Nat :=
  if '0' ≤ c && c ≤ '9' then c.toNat - '0'.toNat
  else if 'a' ≤ c && c ≤ 'f' then c.toNat - 'a'.toNat + 10
  else c.toNat - 'A'.toNat + 10

/-- UTF-8 byte length of a character list: Rust's `str::len`. -/
def utf8Len (s : List Char) : Nat := (s.map Char.utf8Size).sum

/-- The character scan of `MacAddress::parse_str`, one step per character.
State: `idx` is the enumeration index of the next character, `offset` the
destination byte index into `eui`, `hn` the "high nibble seen" flag.
`len` is the byte length of the whole input, used in error payloads.
Returns the final `(offset, eui)` pair when the scan ends without error. -/
def parseLoop (len : Nat) : List Char → Nat → Nat → Bool → List Nat →
    Except ParseError (Nat × List Nat)
  | [], _, offset, _, eui => .ok (offset, eui)
  | c :: rest, idx, offset, hn, eui =>
    if offset ≥ EUI48LEN then .error (.InvalidLength len)
    else if isHexDigit c then
      if hn then
        parseLoop len rest (idx + 1) (offset + 1) false
          (eui.set offset ((eui.getD offset 0 + toDigit16 c) % 256))
      else
        parseLoop len rest (idx + 1) offset true
          (eui.set offset ((toDigit16 c <<< 4) % 256))
    else if isSep c then parseLoop len rest (idx + 1) offset hn eui
    else if c == 'x' || c == 'X' then
      if idx == 1 then parseLoop len rest (idx + 1) 0 false eui
      else .error (.InvalidCharacter c idx)
    else .error (.InvalidCharacter c idx)

/-- The parser `MacAddress::parse_str`: the upfront length check, the
character scan, and the final destination-index check. -/
def MacAddress.parse_str (s : List Char) : Except ParseError MacAddress :=
  let len := utf8Len s
  if len = 14 ∨ len = 17 then
    match parseLoop len s 0 0 false (List.replicate EUI48LEN 0) with
    | .error e => .error e
    | .ok (offset, eui) =>
      if offset = EUI48LEN then .ok (MacAddress.new eui)
      else .error (.InvalidLength len)
  else .error (.InvalidLength len)

deriving instance DecidableEq for Except

/-- Decimal digit character for a value below 10. -/
def decDigitChar (n : Nat) : Char := Char.ofNat ('0'.toNat + n)

/-- Fuelled decimal rendering: the fuel only bounds the recursion depth so
that the definition is structural and evaluates in the kernel. -/
def natDigitsAux : Nat → Nat → List Char
  | 0, _ => []
  | fuel + 1, n =>
    if n < 10 then [decDigitChar n]
    else natDigitsAux fuel (n / 10) ++ [decDigitChar (n % 10)]

/-- Decimal rendering of a natural number, as Rust's `Display` for `usize`. -/
def natDigits (n : Nat) : List Char := natDigitsAux (n + 1) n

/-- The `Display` rendering of `ParseError`, exactly as in the source
`impl fmt::Display for ParseError`. -/
def ParseError.display : ParseError → List Char
  | .InvalidLength found =>
    "Invalid length; expecting 15 or 18 chars, found ".toList ++ natDigits found
  | .InvalidCharacter found pos =>
    "Invalid character; found `".toList ++ found ::
      "` at offset ".toList ++ natDigits pos

/-- Effect of the scan on the destination buffer, restricted to the hex
digits it consumes: the same nibble writes `parseLoop` performs, with the
enumeration index and the error cases stripped away. -/
def writeDigits : List Nat → Nat → Bool → List Char → List Nat
  | eui, _, _, [] => eui
  | eui, off, false, c :: rest =>
    writeDigits (eui.set off ((toDigit16 c <<< 4) % 256)) off true rest
  | eui, off, true, c :: rest =>
    writeDigits (eui.set off ((eui.getD off 0 + toDigit16 c) % 256)) (off + 1) false rest

/-- Bytes formed by consecutive pairs of hex digit characters. -/
def pairBytes : List Char → List Nat
  | a :: b :: rest => ((toDigit16 a <<< 4) % 256 + toDigit16 b) % 256 :: pairBytes rest
  | _ => []

/-- Characters that cannot trigger `InvalidCharacter` at enumeration
index `i`: hex digits, separators, and `x`/`X` when `i = 1`. -/
def goodCharAt (c : Char) (i : Nat) : Prop :=
  isHexDigit c = true ∨ isSep c = true ∨ ((c = 'x' ∨ c = 'X') ∧ i = 1)

instance (c : Char) (i : Nat) : Decidable (goodCharAt c i) := by
  unfold goodCharAt
  infer_instance

/-! Facts about hexadecimal digit characters, obtained by checking the
sixteen possible digit values. -/

theorem hexDigitChar_isHexDigit {n : Nat} (h : n < 16) :
    isHexDigit (hexDigitChar n) = true := by
  have H : ∀ m : Fin 16, isHexDigit (hexDigitChar m.val) = true := by decide
  exact H ⟨n, h⟩

theorem hexDigitChar_toDigit16 {n : Nat} (h : n < 16) :
    toDigit16 (hexDigitChar n) = n := by
  have H : ∀ m : Fin 16, toDigit16 (hexDigitChar m.val) = m.val := by decide
  exact H ⟨n, h⟩

theorem hexDigitChar_not_sep {n : Nat} (h : n < 16) :
    isSep (hexDigitChar n) = false := by
  have H : ∀ m : Fin 16, isSep (hexDigitChar m.val) = false := by decide
  exact H ⟨n, h⟩

theorem hexDigitChar_utf8Size {n : Nat} (h : n < 16) :
    (hexDigitChar n).utf8Size = 1 := by
  have H : ∀ m : Fin 16, (hexDigitChar m.val).utf8Size = 1 := by decide
  exact H ⟨n, h⟩

theorem hexDigitChar_lower {n : Nat} (h : n < 16) :
    (('0' ≤ hexDigitChar n && hexDigitChar n ≤ '9') ||
     ('a' ≤ hexDigitChar n && hexDigitChar n ≤ 'f')) = true := by
  have H : ∀ m : Fin 16,
      (('0' ≤ hexDigitChar m.val && hexDigitChar m.val ≤ '9') ||
       ('a' ≤ hexDigitChar m.val && hexDigitChar m.val ≤ 'f')) = true := by decide
  exact H ⟨n, h⟩

/-! Facts about the character classes of the parser. -/

theorem isSep_elim {c : Char} (h : isSep c = true) :
    c = '-' ∨ c = ':' ∨ c = '.' := by
  simp only [isSep, Bool.or_eq_true, beq_iff_eq] at h
  tauto

theorem isSep_not_hex {c : Char} (h : isSep c = true) : isHexDigit c = false := by
  rcases isSep_elim h with rfl | rfl | rfl <;> decide

theorem isHexDigit_utf8Size {c : Char} (h : isHexDigit c = true) :
    c.utf8Size = 1 := by
  simp only [isHexDigit, Bool.or_eq_true, Bool.and_eq_true, decide_eq_true_eq] at h
  have hv : c ≤ 'f' := by
    rcases h with (⟨_, h2⟩ | ⟨_, h2⟩) | ⟨_, h2⟩
    · exact Char.le_trans h2 (by decide)
    · exact h2
    · exact Char.le_trans h2 (by decide)
  simp only [Char.utf8Size]
  split
  · rfl
  · rename_i hcond
    exact absurd (UInt32.le_trans (Char.le_def.mp hv) (by decide)) hcond

theorem isSep_utf8Size {c : Char} (h : isSep c = true) : c.utf8Size = 1 := by
  rcases isSep_elim h with rfl | rfl | rfl <;> decide

/-! Step lemmas for `parseLoop`, one per branch of the scan. -/

theorem parseLoop_nil (len idx off : Nat) (hn : Bool) (eui : List Nat) :
    parseLoop len [] idx off hn eui = .ok (off, eui) := rfl

theorem parseLoop_guard {off : Nat} (hoff : 6 ≤ off) (len idx : Nat) (c : Char)
    (rest : List Char) (hn : Bool) (eui : List Nat) :
    parseLoop len (c :: rest) idx off hn eui = .error (.InvalidLength len) := by
  simp [parseLoop, EUI48LEN, hoff]

theorem parseLoop_hex_high {c : Char} {off : Nat} (hc : isHexDigit c = true)
    (hoff : off < 6) (len idx : Nat) (rest : List Char) (eui : List Nat) :
    parseLoop len (c :: rest) idx off false eui =
      parseLoop len rest (idx + 1) off true
        (eui.set off ((toDigit16 c <<< 4) % 256)) := by
  simp [parseLoop, EUI48LEN, Nat.not_le_of_lt hoff, hc]

theorem parseLoop_hex_low {c : Char} {off : Nat} (hc : isHexDigit c = true)
    (hoff : off < 6) (len idx : Nat) (rest : List Char) (eui : List Nat) :
    parseLoop len (c :: rest) idx off true eui =
      parseLoop len rest (idx + 1) (off + 1) false
        (eui.set off ((eui.getD off 0 + toDigit16 c) % 256)) := by
  simp [parseLoop, EUI48LEN, Nat.not_le_of_lt hoff, hc]

theorem parseLoop_sep {c : Char} {off : Nat} (hc : isSep c = true)
    (hoff : off < 6) (len idx : Nat) (rest : List Char) (hn : Bool)
    (eui : List Nat) :
    parseLoop len (c :: rest) idx off hn eui =
      parseLoop len rest (idx + 1) off hn eui := by
  simp [parseLoop, EUI48LEN, Nat.not_le_of_lt hoff, isSep_not_hex hc, hc]

theorem parseLoop_x_reset {c : Char} {off : Nat} (hc : c = 'x' ∨ c = 'X')
    (hoff : off < 6) (len : Nat) (rest : List Char) (hn : Bool)
    (eui : List Nat) :
    parseLoop len (c :: rest) 1 off hn eui =
      parseLoop len rest 2 0 false eui := by
  rcases hc with rfl | rfl <;>
    simp [parseLoop, EUI48LEN, Nat.not_le_of_lt hoff,
      (by decide : isHexDigit 'x' = false), (by decide : isSep 'x' = false),
      (by decide : isHexDigit 'X' = false), (by decide : isSep 'X' = false)]

theorem parseLoop_x_bad {c : Char} {off idx : Nat} (hc : c = 'x' ∨ c = 'X')
    (hidx : idx ≠ 1) (hoff : off < 6) (len : Nat) (rest : List Char)
    (hn : Bool) (eui : List Nat) :
    parseLoop len (c :: rest) idx off hn eui =
      .error (.InvalidCharacter c idx) := by
  rcases hc with rfl | rfl <;>
    simp [parseLoop, EUI48LEN, Nat.not_le_of_lt hoff, hidx,
      (by decide : isHexDigit 'x' = false), (by decide : isSep 'x' = false),
      (by decide : isHexDigit 'X' = false), (by decide : isSep 'X' = false)]

/-- When the remaining characters are hex digits and separators only, the
count of pending digits completes the buffer exactly, and the last
character is a digit, the scan succeeds and performs the pending writes. -/
theorem parseLoop_ok_of_digits (cs : List Char) : ∀ (len idx off : Nat)
    (hn : Bool) (eui : List Nat),
    (∀ c ∈ cs, isHexDigit c = true ∨ isSep c = true) →
    2 * off + (if hn then 1 else 0) +
      (cs.filter (fun c => isHexDigit c)).length = 12 →
    (∀ h : cs ≠ [], isHexDigit (cs.getLast h) = true) →
    parseLoop len cs idx off hn eui =
      .ok (6, writeDigits eui off hn (cs.filter (fun c => isHexDigit c))) := by
  induction cs with
  | nil =>
    intro len idx off hn eui _ hcount _
    cases hn <;> simp_all [parseLoop_nil, writeDigits] <;> omega
  | cons c rest ih =>
    intro len idx off hn eui hgood hcount hlast
    have hcr : (c :: rest) ≠ [] := by simp
    have hoff : off < 6 := by
      by_contra hge
      have h6 : off = 6 ∧ (if hn then 1 else 0) = 0 ∧
          ((c :: rest).filter (fun c => isHexDigit c)).length = 0 := by
        constructor
        · omega
        · constructor <;> omega
      have hnil : (c :: rest).filter (fun c => isHexDigit c) = [] :=
        List.length_eq_zero.mp h6.2.2
      have hmem : (c :: rest).getLast hcr ∈ (c :: rest) := List.getLast_mem hcr
      have : (c :: rest).getLast hcr ∈ (c :: rest).filter (fun c => isHexDigit c) :=
        List.mem_filter.mpr ⟨hmem, hlast hcr⟩
      rw [hnil] at this
      exact absurd this (List.not_mem_nil _)
    have hgood_rest : ∀ c ∈ rest, isHexDigit c = true ∨ isSep c = true :=
      fun d hd => hgood d (List.mem_cons_of_mem c hd)
    have hlast_rest : ∀ h : rest ≠ [], isHexDigit (rest.getLast h) = true := by
      intro h
      have := hlast hcr
      rwa [List.getLast_cons h] at this
    rcases hgood c (List.mem_cons_self c rest) with hc | hc
    · -- the head is a hex digit
      have hfil : (c :: rest).filter (fun c => isHexDigit c) =
          c :: rest.filter (fun c => isHexDigit c) := by
        simp [List.filter_cons, hc]
      cases hn with
      | false =>
        rw [parseLoop_hex_high hc hoff, hfil]
        rw [ih len (idx + 1) off true _ hgood_rest (by rw [hfil] at hcount; simp at hcount ⊢; omega)
          (by
            intro h
            rcases List.eq_nil_or_concat rest with hnil | _
            · exact absurd hnil h
            · exact hlast_rest h)]
        simp [writeDigits]
      | true =>
        rw [parseLoop_hex_low hc hoff, hfil]
        rw [ih len (idx + 1) (off + 1) false _ hgood_rest (by rw [hfil] at hcount; simp at hcount ⊢; omega)
          (by
            intro h
            exact hlast_rest h)]
        simp [writeDigits]
    · -- the head is a separator
      have hch : isHexDigit c = false := isSep_not_hex hc
      have hfil : (c :: rest).filter (fun c => isHexDigit c) =
          rest.filter (fun c => isHexDigit c) := by
        simp [List.filter_cons, hch]
      have hrest_ne : rest ≠ [] := by
        intro hnil
        subst hnil
        have := hlast hcr
        simp at this
        rw [this] at hch
        exact absurd hch (by simp)
      rw [parseLoop_sep hc hoff, hfil]
      rw [ih len (idx + 1) off hn _ hgood_rest (by rw [hfil] at hcount; omega)
        (fun _ => hlast_rest hrest_ne)]

/-- On an input whose every character is `goodCharAt` its index, a failing
scan can only fail with `InvalidLength len`. -/
theorem parseLoop_err_length (cs : List Char) : ∀ (len idx off : Nat)
    (hn : Bool) (eui : List Nat),
    (∀ i (h : i < cs.length), goodCharAt (cs.get ⟨i, h⟩) (idx + i)) →
    ∀ e, parseLoop len cs idx off hn eui = .error e →
    e = .InvalidLength len := by
  induction cs with
  | nil =>
    intro len idx off hn eui _ e he
    rw [parseLoop_nil] at he
    exact absurd he (by simp)
  | cons c rest ih =>
    intro len idx off hn eui hgood e he
    have hgood_rest : ∀ i (h : i < rest.length),
        goodCharAt (rest.get ⟨i, h⟩) ((idx + 1) + i) := by
      intro i h
      have := hgood (i + 1) (by simpa using Nat.succ_lt_succ h)
      simpa [Nat.add_assoc, Nat.add_comm 1 i] using this
    by_cases hoff : off < 6
    · rcases hgood 0 (by simp) with hc | hc | ⟨hc, hi⟩
      · simp only [List.get] at hc
        cases hn with
        | false =>
          rw [parseLoop_hex_high hc hoff] at he
          exact ih len (idx + 1) off true _ hgood_rest e he
        | true =>
          rw [parseLoop_hex_low hc hoff] at he
          exact ih len (idx + 1) (off + 1) false _ hgood_rest e he
      · simp only [List.get] at hc
        rw [parseLoop_sep hc hoff] at he
        exact ih len (idx + 1) off hn _ hgood_rest e he
      · simp only [List.get] at hc hi
        subst hi
        rw [parseLoop_x_reset hc hoff] at he
        exact ih len 2 0 false _ (by simpa using hgood_rest) e he
    · rw [parseLoop_guard (by omega)] at he
      exact (Except.error.injEq _ _).mp he |>.symm

/-- A list of one-byte characters has equal UTF-8 and character length. -/
theorem utf8Len_eq_length {s : List Char} (h : ∀ c ∈ s, c.utf8Size = 1) :
    utf8Len s = s.length := by
  induction s with
  | nil => rfl
  | cons c rest ih =>
    have hc := h c (List.mem_cons_self c rest)
    have := ih (fun d hd => h d (List.mem_cons_of_mem c hd))
    simp [utf8Len, List.map_cons, List.sum_cons, hc] at this ⊢
    omega

theorem goodCharAt_utf8Size {c : Char} {i : Nat} (h : goodCharAt c i) :
    c.utf8Size = 1 := by
  rcases h with h | h | ⟨h, _⟩
  · exact isHexDigit_utf8Size h
  · exact isSep_utf8Size h
  · rcases h with rfl | rfl <;> decide

/-- Writing twelve digits into the zeroed buffer builds exactly the six
bytes formed by consecutive digit pairs. -/
theorem writeDigits_eq_pairBytes (ds : List Char) (h : ds.length = 12) :
    writeDigits (List.replicate 6 0) 0 false ds = pairBytes ds := by
  rcases ds with _ | ⟨a1, ds⟩
  · simp at h
  rcases ds with _ | ⟨a2, ds⟩
  · simp at h
  rcases ds with _ | ⟨a3, ds⟩
  · simp at h
  rcases ds with _ | ⟨a4, ds⟩
  · simp at h
  rcases ds with _ | ⟨a5, ds⟩
  · simp at h
  rcases ds with _ | ⟨a6, ds⟩
  · simp at h
  rcases ds with _ | ⟨a7, ds⟩
  · simp at h
  rcases ds with _ | ⟨a8, ds⟩
  · simp at h
  rcases ds with _ | ⟨a9, ds⟩
  · simp at h
  rcases ds with _ | ⟨a10, ds⟩
  · simp at h
  rcases ds with _ | ⟨a11, ds⟩
  · simp at h
  rcases ds with _ | ⟨a12, ds⟩
  · simp at h
  rcases ds with _ | ⟨a13, ds⟩
  · simp [writeDigits, pairBytes, List.set, List.getD]
  · simp at h

/-- C1: the spec says `isUnicast` is true iff bit 0 of the first byte is 0
and that `isUnicast`/`isMulticast` are complements.  The code instead masks
with the constant 0 (`self.eui[0] & 0 == 0`), so `is_unicast` is true for
every address; on a multicast address such as `01:00:00:00:00:00` both
predicates report `true`, contradicting the claimed exclusivity. -/
theorem claim_c1_unicast_divergence :
    (∀ m : MacAddress, m.is_unicast = true) ∧
    (MacAddress.new [1, 0, 0, 0, 0, 0]).is_multicast = true ∧
    (MacAddress.new [1, 0, 0, 0, 0, 0]).is_unicast = true ∧
    Nat.testBit ((MacAddress.new [1, 0, 0, 0, 0, 0]).eui.getD 0 0) 0 = true := by
  refine ⟨fun m => ?_, by decide, by decide, by decide⟩
  simp [MacAddress.is_unicast]

/-- C3 counterexample: `parse_str` measures the input with Rust's byte
length (`str::len`), not the character count.  Seven two-byte characters
have character count 7 (neither 14 nor 17), yet the parse is not rejected
with `InvalidLength 7`: the length check sees 14 bytes and the scan then
fails on the first character. -/
theorem claim_c3_counterexample :
    (List.replicate 7 'é').length = 7 ∧
    utf8Len (List.replicate 7 'é') = 14 ∧
    MacAddress.parse_str (List.replicate 7 'é') =
      .error (.InvalidCharacter 'é' 0) := by decide

/-- C3 (amended to UTF-8 byte count, which equals the character count on
ASCII input): any input whose byte length is neither 14 nor 17 is rejected
upfront with `InvalidLength` of that byte length; in particular the empty
string gives `InvalidLength 0` and a bare 12-digit string gives
`InvalidLength 12`. -/
theorem claim_c3_length_reject :
    (∀ s : List Char, utf8Len s ≠ 14 → utf8Len s ≠ 17 →
      MacAddress.parse_str s = .error (.InvalidLength (utf8Len s))) ∧
    MacAddress.parse_str [] = .error (.InvalidLength 0) ∧
    MacAddress.parse_str ("123456ABCDEF".toList) = .error (.InvalidLength 12) := by
  refine ⟨fun s h1 h2 => ?_, by decide, by decide⟩
  simp [MacAddress.parse_str, h1, h2]

theorem claim_c3_length_reject_witness :
    MacAddress.parse_str ['a'] = .error (.InvalidLength (utf8Len ['a'])) :=
  claim_c3_length_reject.1 ['a'] (by decide) (by decide)

/-- C4: an `x` or `X` reached by the scan (buffer not yet full) at an
enumeration index other than 1 fails with `InvalidCharacter` of that
character and index; at index 1 it resets the destination index and the
high-nibble flag and scanning continues; `parse_str "0x0x0x0x0x0x0x"`
fails with `InvalidCharacter('x', 3)`. -/
theorem claim_c4_x_handling :
    (∀ (c : Char) (rest : List Char) (len idx off : Nat) (hn : Bool)
      (eui : List Nat), (c = 'x' ∨ c = 'X') → idx ≠ 1 → off < 6 →
      parseLoop len (c :: rest) idx off hn eui =
        .error (.InvalidCharacter c idx)) ∧
    (∀ (c : Char) (rest : List Char) (len off : Nat) (hn : Bool)
      (eui : List Nat), (c = 'x' ∨ c = 'X') → off < 6 →
      parseLoop len (c :: rest) 1 off hn eui =
        parseLoop len rest 2 0 false eui) ∧
    MacAddress.parse_str ("0x0x0x0x0x0x0x".toList) =
      .error (.InvalidCharacter 'x' 3) :=
  ⟨fun _ rest len _ _ hn eui hc hidx hoff =>
      parseLoop_x_bad hc hidx hoff len rest hn eui,
   fun _ rest len _ hn eui hc hoff =>
      parseLoop_x_reset hc hoff len rest hn eui,
   by decide⟩

theorem claim_c4_x_handling_witness :
    parseLoop 14 ['x'] 0 0 false (List.replicate 6 0) =
      .error (.InvalidCharacter 'x' 0) ∧
    parseLoop 14 ['x', '1'] 1 0 false (List.replicate 6 0) =
      parseLoop 14 ['1'] 2 0 false (List.replicate 6 0) :=
  ⟨claim_c4_x_handling.1 'x' [] 14 0 0 false _ (Or.inl rfl) (by decide) (by decide),
   claim_c4_x_handling.2.1 'x' ['1'] 14 0 false _ (Or.inl rfl) (by decide)⟩

/-- C8: `is_universal` is true exactly when bit 1 of the first byte is 0,
`is_local` exactly when it is 1, and the two are complements. -/
theorem claim_c8_universal_local (m : MacAddress) :
    (m.is_universal = true ↔ Nat.testBit (m.eui.getD 0 0) 1 = false) ∧
    (m.is_local = true ↔ Nat.testBit (m.eui.getD 0 0) 1 = true) ∧
    m.is_local = !m.is_universal := by
  have key : (m.eui.getD 0 0) &&& 2 ^ 1 =
      ((m.eui.getD 0 0).testBit 1).toNat * 2 ^ 1 :=
    Nat.and_two_pow (m.eui.getD 0 0) 1
  have h2 : (1 : Nat) <<< 1 = 2 ^ 1 := by decide
  cases hb : (m.eui.getD 0 0).testBit 1 <;>
    simp_all [MacAddress.is_universal, MacAddress.is_local, h2]

/-- C10: the `Display` rendering of the two error cases, character for
character; the lengths 15 and 18 named in the message are never accepted
by `parse_str`, whereas lengths 14 and 17 are the ones that can succeed. -/
theorem claim_c10_display :
    (∀ n : Nat, ParseError.display (.InvalidLength n) =
      "Invalid length; expecting 15 or 18 chars, found ".toList ++ natDigits n) ∧
    (∀ (c : Char) (p : Nat), ParseError.display (.InvalidCharacter c p) =
      "Invalid character; found `".toList ++ c :: "` at offset ".toList ++
        natDigits p) ∧
    ParseError.display (.InvalidLength 0) =
      "Invalid length; expecting 15 or 18 chars, found 0".toList ∧
    ParseError.display (.InvalidCharacter '!' 0) =
      "Invalid character; found `!` at offset 0".toList ∧
    (∀ s : List Char, utf8Len s = 15 ∨ utf8Len s = 18 →
      MacAddress.parse_str s = .error (.InvalidLength (utf8Len s))) ∧
    MacAddress.parse_str ("0x123456abcdef".toList) =
      .ok (MacAddress.new [0x12, 0x34, 0x56, 0xAB, 0xCD, 0xEF]) ∧
    utf8Len ("0x123456abcdef".toList) = 14 ∧
    MacAddress.parse_str ("12:34:56:ab:cd:ef".toList) =
      .ok (MacAddress.new [0x12, 0x34, 0x56, 0xAB, 0xCD, 0xEF]) ∧
    utf8Len ("12:34:56:ab:cd:ef".toList) = 17 := by
  refine ⟨fun n => rfl, fun c p => rfl, by decide, by decide, fun s hs => ?_,
    by decide, by decide, by decide, by decide⟩
  have h1 : utf8Len s ≠ 14 := by omega
  have h2 : utf8Len s ≠ 17 := by omega
  simp [MacAddress.parse_str, h1, h2]

theorem claim_c10_display_witness :
    MacAddress.parse_str (List.replicate 15 '0') =
      .error (.InvalidLength (utf8Len (List.replicate 15 '0'))) :=
  claim_c10_display.2.2.2.2.1 (List.replicate 15 '0') (Or.inl (by decide))

/-- Parsing the two rendered digits of a byte recovers the byte. -/
theorem pairByte_reconstruct {b : Nat} (hb : b < 256) :
    ((toDigit16 (hexDigitChar (b / 16)) <<< 4) % 256 +
      toDigit16 (hexDigitChar (b % 16))) % 256 = b := by
  rw [hexDigitChar_toDigit16 (by omega), hexDigitChar_toDigit16 (by omega),
    Nat.shiftLeft_eq]
  have h16 : (2 : Nat) ^ 4 = 16 := by norm_num
  rw [h16]
  omega

/-- C2: the colon-notation round trip.  Rendering any six bytes with
`to_hex_string` and parsing the result returns exactly those bytes. -/
theorem claim_c2_roundtrip (b0 b1 b2 b3 b4 b5 : Nat)
    (h0 : b0 < 256) (h1 : b1 < 256) (h2 : b2 < 256)
    (h3 : b3 < 256) (h4 : b4 < 256) (h5 : b5 < 256) :
    MacAddress.parse_str (MacAddress.new [b0, b1, b2, b3, b4, b5]).to_hex_string =
      .ok (MacAddress.new [b0, b1, b2, b3, b4, b5]) := by
  have e : (MacAddress.new [b0, b1, b2, b3, b4, b5]).to_hex_string =
      [hexDigitChar (b0 / 16), hexDigitChar (b0 % 16), ':',
       hexDigitChar (b1 / 16), hexDigitChar (b1 % 16), ':',
       hexDigitChar (b2 / 16), hexDigitChar (b2 % 16), ':',
       hexDigitChar (b3 / 16), hexDigitChar (b3 % 16), ':',
       hexDigitChar (b4 / 16), hexDigitChar (b4 % 16), ':',
       hexDigitChar (b5 / 16), hexDigitChar (b5 % 16)] := by
    simp [MacAddress.to_hex_string, MacAddress.new, byteToHex]
  rw [e]
  have hx0h := hexDigitChar_isHexDigit (n := b0 / 16) (by omega)
  have hx0l := hexDigitChar_isHexDigit (n := b0 % 16) (by omega)
  have hx1h := hexDigitChar_isHexDigit (n := b1 / 16) (by omega)
  have hx1l := hexDigitChar_isHexDigit (n := b1 % 16) (by omega)
  have hx2h := hexDigitChar_isHexDigit (n := b2 / 16) (by omega)
  have hx2l := hexDigitChar_isHexDigit (n := b2 % 16) (by omega)
  have hx3h := hexDigitChar_isHexDigit (n := b3 / 16) (by omega)
  have hx3l := hexDigitChar_isHexDigit (n := b3 % 16) (by omega)
  have hx4h := hexDigitChar_isHexDigit (n := b4 / 16) (by omega)
  have hx4l := hexDigitChar_isHexDigit (n := b4 % 16) (by omega)
  have hx5h := hexDigitChar_isHexDigit (n := b5 / 16) (by omega)
  have hx5l := hexDigitChar_isHexDigit (n := b5 % 16) (by omega)
  have hu0h := hexDigitChar_utf8Size (n := b0 / 16) (by omega)
  have hu0l := hexDigitChar_utf8Size (n := b0 % 16) (by omega)
  have hu1h := hexDigitChar_utf8Size (n := b1 / 16) (by omega)
  have hu1l := hexDigitChar_utf8Size (n := b1 % 16) (by omega)
  have hu2h := hexDigitChar_utf8Size (n := b2 / 16) (by omega)
  have hu2l := hexDigitChar_utf8Size (n := b2 % 16) (by omega)
  have hu3h := hexDigitChar_utf8Size (n := b3 / 16) (by omega)
  have hu3l := hexDigitChar_utf8Size (n := b3 % 16) (by omega)
  have hu4h := hexDigitChar_utf8Size (n := b4 / 16) (by omega)
  have hu4l := hexDigitChar_utf8Size (n := b4 % 16) (by omega)
  have hu5h := hexDigitChar_utf8Size (n := b5 / 16) (by omega)
  have hu5l := hexDigitChar_utf8Size (n := b5 % 16) (by omega)
  have hlen : utf8Len
      [hexDigitChar (b0 / 16), hexDigitChar (b0 % 16), ':',
       hexDigitChar (b1 / 16), hexDigitChar (b1 % 16), ':',
       hexDigitChar (b2 / 16), hexDigitChar (b2 % 16), ':',
       hexDigitChar (b3 / 16), hexDigitChar (b3 % 16), ':',
       hexDigitChar (b4 / 16), hexDigitChar (b4 % 16), ':',
       hexDigitChar (b5 / 16), hexDigitChar (b5 % 16)] = 17 := by
    simp [utf8Len, hu0h, hu0l, hu1h, hu1l, hu2h, hu2l, hu3h, hu3l,
      hu4h, hu4l, hu5h, hu5l, (by decide : Char.utf8Size ':' = 1)]
  have hfil : List.filter (fun c => isHexDigit c)
      [hexDigitChar (b0 / 16), hexDigitChar (b0 % 16), ':',
       hexDigitChar (b1 / 16), hexDigitChar (b1 % 16), ':',
       hexDigitChar (b2 / 16), hexDigitChar (b2 % 16), ':',
       hexDigitChar (b3 / 16), hexDigitChar (b3 % 16), ':',
       hexDigitChar (b4 / 16), hexDigitChar (b4 % 16), ':',
       hexDigitChar (b5 / 16), hexDigitChar (b5 % 16)] =
      [hexDigitChar (b0 / 16), hexDigitChar (b0 % 16),
       hexDigitChar (b1 / 16), hexDigitChar (b1 % 16),
       hexDigitChar (b2 / 16), hexDigitChar (b2 % 16),
       hexDigitChar (b3 / 16), hexDigitChar (b3 % 16),
       hexDigitChar (b4 / 16), hexDigitChar (b4 % 16),
       hexDigitChar (b5 / 16), hexDigitChar (b5 % 16)] := by
    simp [List.filter, hx0h, hx0l, hx1h, hx1l, hx2h, hx2l, hx3h, hx3l,
      hx4h, hx4l, hx5h, hx5l, (by decide : isHexDigit ':' = false)]
  have hloop := parseLoop_ok_of_digits
      [hexDigitChar (b0 / 16), hexDigitChar (b0 % 16), ':',
       hexDigitChar (b1 / 16), hexDigitChar (b1 % 16), ':',
       hexDigitChar (b2 / 16), hexDigitChar (b2 % 16), ':',
       hexDigitChar (b3 / 16), hexDigitChar (b3 % 16), ':',
       hexDigitChar (b4 / 16), hexDigitChar (b4 % 16), ':',
       hexDigitChar (b5 / 16), hexDigitChar (b5 % 16)]
      17 0 0 false (List.replicate 6 0)
      (by
        simp only [List.forall_mem_cons, List.forall_mem_nil]
        exact ⟨Or.inl hx0h, Or.inl hx0l, Or.inr (by decide),
          Or.inl hx1h, Or.inl hx1l, Or.inr (by decide),
          Or.inl hx2h, Or.inl hx2l, Or.inr (by decide),
          Or.inl hx3h, Or.inl hx3l, Or.inr (by decide),
          Or.inl hx4h, Or.inl hx4l, Or.inr (by decide),
          Or.inl hx5h, Or.inl hx5l, List.forall_mem_nil _⟩)
      (by rw [hfil]; rfl)
      (fun _ => hx5l)
  simp only [MacAddress.parse_str, EUI48LEN]
  rw [hlen]
  rw [if_pos (Or.inr rfl)]
  rw [hloop, hfil]
  rw [writeDigits_eq_pairBytes
      [hexDigitChar (b0 / 16), hexDigitChar (b0 % 16),
       hexDigitChar (b1 / 16), hexDigitChar (b1 % 16),
       hexDigitChar (b2 / 16), hexDigitChar (b2 % 16),
       hexDigitChar (b3 / 16), hexDigitChar (b3 % 16),
       hexDigitChar (b4 / 16), hexDigitChar (b4 % 16),
       hexDigitChar (b5 / 16), hexDigitChar (b5 % 16)] (by simp)]
  simp only [pairBytes]
  rw [pairByte_reconstruct h0, pairByte_reconstruct h1, pairByte_reconstruct h2,
    pairByte_reconstruct h3, pairByte_reconstruct h4, pairByte_reconstruct h5]
  simp

theorem claim_c2_roundtrip_witness :
    MacAddress.parse_str
        (MacAddress.new [0x12, 0x34, 0x56, 0xAB, 0xCD, 0xEF]).to_hex_string =
      .ok (MacAddress.new [0x12, 0x34, 0x56, 0xAB, 0xCD, 0xEF]) :=
  claim_c2_roundtrip 0x12 0x34 0x56 0xAB 0xCD 0xEF (by decide) (by decide)
    (by decide) (by decide) (by decide) (by decide)

/-- C5: the prefix reset is purely positional.  For any hex digit `d` and
any twelve hex digits, parsing `d` `x` digits gives the same result as
parsing `0` `x` digits: the byte tentatively written from the character at
offset 0 is discarded by the reset at offset 1. -/
theorem claim_c5_positional_prefix
    (d c1 c2 c3 c4 c5 c6 c7 c8 c9 c10 c11 c12 : Char)
    (hd : isHexDigit d = true)
    (h1 : isHexDigit c1 = true) (h2 : isHexDigit c2 = true)
    (h3 : isHexDigit c3 = true) (h4 : isHexDigit c4 = true)
    (h5 : isHexDigit c5 = true) (h6 : isHexDigit c6 = true)
    (h7 : isHexDigit c7 = true) (h8 : isHexDigit c8 = true)
    (h9 : isHexDigit c9 = true) (h10 : isHexDigit c10 = true)
    (h11 : isHexDigit c11 = true) (h12 : isHexDigit c12 = true) :
    MacAddress.parse_str
      (d :: 'x' :: [c1, c2, c3, c4, c5, c6, c7, c8, c9, c10, c11, c12]) =
    MacAddress.parse_str
      ('0' :: 'x' :: [c1, c2, c3, c4, c5, c6, c7, c8, c9, c10, c11, c12]) := by
  have hfil : List.filter (fun c => isHexDigit c)
      [c1, c2, c3, c4, c5, c6, c7, c8, c9, c10, c11, c12] =
      [c1, c2, c3, c4, c5, c6, c7, c8, c9, c10, c11, c12] := by
    simp [List.filter, h1, h2, h3, h4, h5, h6, h7, h8, h9, h10, h11, h12]
  have run : ∀ dch : Char, isHexDigit dch = true →
      MacAddress.parse_str
        (dch :: 'x' :: [c1, c2, c3, c4, c5, c6, c7, c8, c9, c10, c11, c12]) =
      .ok (MacAddress.new
        (writeDigits ((List.replicate 6 0).set 0 ((toDigit16 dch <<< 4) % 256))
          0 false [c1, c2, c3, c4, c5, c6, c7, c8, c9, c10, c11, c12])) := by
    intro dch hdch
    have hlen : utf8Len
        (dch :: 'x' :: [c1, c2, c3, c4, c5, c6, c7, c8, c9, c10, c11, c12]) = 14 := by
      simp [utf8Len, isHexDigit_utf8Size hdch, isHexDigit_utf8Size h1,
        isHexDigit_utf8Size h2, isHexDigit_utf8Size h3, isHexDigit_utf8Size h4,
        isHexDigit_utf8Size h5, isHexDigit_utf8Size h6, isHexDigit_utf8Size h7,
        isHexDigit_utf8Size h8, isHexDigit_utf8Size h9, isHexDigit_utf8Size h10,
        isHexDigit_utf8Size h11, isHexDigit_utf8Size h12,
        (by decide : Char.utf8Size 'x' = 1)]
    have hloop := parseLoop_ok_of_digits
        [c1, c2, c3, c4, c5, c6, c7, c8, c9, c10, c11, c12] 14 2 0 false
        ((List.replicate 6 0).set 0 ((toDigit16 dch <<< 4) % 256))
        (by
          simp only [List.forall_mem_cons]
          exact ⟨Or.inl h1, Or.inl h2, Or.inl h3, Or.inl h4, Or.inl h5,
            Or.inl h6, Or.inl h7, Or.inl h8, Or.inl h9, Or.inl h10,
            Or.inl h11, Or.inl h12, List.forall_mem_nil _⟩)
        (by rw [hfil]; rfl)
        (fun _ => h12)
    simp only [MacAddress.parse_str, EUI48LEN]
    rw [hlen, if_pos (Or.inl rfl)]
    rw [parseLoop_hex_high hdch (by omega)]
    simp only [Nat.zero_add]
    rw [parseLoop_x_reset (Or.inl rfl) (by omega)]
    rw [hloop, hfil]
    simp
  rw [run d hd, run '0' (by decide)]
  have hsame : writeDigits ((List.replicate 6 0).set 0 ((toDigit16 d <<< 4) % 256))
        0 false [c1, c2, c3, c4, c5, c6, c7, c8, c9, c10, c11, c12] =
      writeDigits ((List.replicate 6 0).set 0 ((toDigit16 '0' <<< 4) % 256))
        0 false [c1, c2, c3, c4, c5, c6, c7, c8, c9, c10, c11, c12] := by
    simp [writeDigits, List.set, List.getD]
  rw [hsame]

theorem claim_c5_positional_prefix_witness :
    MacAddress.parse_str
      ('a' :: 'x' :: "123456789012".toList) =
    MacAddress.parse_str
      ('0' :: 'x' :: "123456789012".toList) :=
  claim_c5_positional_prefix 'a' '1' '2' '3' '4' '5' '6' '7' '8' '9' '0' '1' '2'
    (by decide) (by decide) (by decide) (by decide) (by decide) (by decide)
    (by decide) (by decide) (by decide) (by decide) (by decide) (by decide)
    (by decide)

/-- C6: the guard and the post-scan check.  Reaching any character with the
buffer already full aborts with `InvalidLength`; on inputs of accepted
length whose characters are all hex digits, separators, or `x`/`X` at
index 1, `parse_str` never reports `InvalidCharacter`, succeeds exactly
when the scan ends having written all six bytes, and reports
`InvalidLength` of the input length when the scan ends short. -/
theorem claim_c6_exact_six_bytes :
    (∀ (len idx off : Nat) (c : Char) (rest : List Char) (hn : Bool)
      (eui : List Nat), 6 ≤ off →
      parseLoop len (c :: rest) idx off hn eui =
        .error (.InvalidLength len)) ∧
    (∀ s : List Char, (utf8Len s = 14 ∨ utf8Len s = 17) →
      (∀ i (h : i < s.length), goodCharAt (s.get ⟨i, h⟩) i) →
      ((∀ (c : Char) (k : Nat),
          MacAddress.parse_str s ≠ .error (.InvalidCharacter c k)) ∧
       ((∃ m, MacAddress.parse_str s = .ok m) ↔
         (∃ eui, parseLoop (utf8Len s) s 0 0 false (List.replicate 6 0) =
           .ok (6, eui))) ∧
       (∀ (off : Nat) (eui : List Nat),
         parseLoop (utf8Len s) s 0 0 false (List.replicate 6 0) =
           .ok (off, eui) → off < 6 →
         MacAddress.parse_str s = .error (.InvalidLength (utf8Len s))))) := by
  constructor
  · intro len idx off c rest hn eui hoff
    exact parseLoop_guard hoff len idx c rest hn eui
  · intro s hlen hgood
    have hgood0 : ∀ i (h : i < s.length), goodCharAt (s.get ⟨i, h⟩) (0 + i) := by
      intro i h
      simpa using hgood i h
    have herr := parseLoop_err_length s (utf8Len s) 0 0 false
      (List.replicate 6 0) hgood0
    rcases hres : parseLoop (utf8Len s) s 0 0 false (List.replicate 6 0)
      with e | ⟨off, eui⟩
    · have he := herr e hres
      subst he
      have hps : MacAddress.parse_str s =
          .error (.InvalidLength (utf8Len s)) := by
        simp only [MacAddress.parse_str, EUI48LEN]
        rw [if_pos hlen, hres]
      refine ⟨?_, ?_, ?_⟩
      · intro c k
        rw [hps]
        simp
      · constructor
        · rintro ⟨m, hm⟩
          rw [hps] at hm
          exact absurd hm (by simp)
        · rintro ⟨eui', heui'⟩
          exact absurd heui' (by simp)
      · intro off' eui' h' _
        exact absurd h' (by simp)
    · by_cases hoff6 : off = 6
      · subst hoff6
        have hps : MacAddress.parse_str s = .ok (MacAddress.new eui) := by
          simp only [MacAddress.parse_str, EUI48LEN]
          rw [if_pos hlen, hres]
          simp
        refine ⟨?_, ?_, ?_⟩
        · intro c k
          rw [hps]
          simp
        · constructor
          · intro _
            exact ⟨eui, rfl⟩
          · intro _
            exact ⟨MacAddress.new eui, hps⟩
        · intro off' eui' h' hlt
          simp only [Except.ok.injEq, Prod.mk.injEq] at h'
          omega
      · have hps : MacAddress.parse_str s =
            .error (.InvalidLength (utf8Len s)) := by
          simp only [MacAddress.parse_str, EUI48LEN]
          rw [if_pos hlen, hres]
          simp [hoff6]
        refine ⟨?_, ?_, ?_⟩
        · intro c k
          rw [hps]
          simp
        · constructor
          · rintro ⟨m, hm⟩
            rw [hps] at hm
            exact absurd hm (by simp)
          · rintro ⟨eui', heui'⟩
            simp only [Except.ok.injEq, Prod.mk.injEq] at heui'
            exact absurd heui'.1 hoff6
        · intro off' eui' h' hlt
          exact hps

theorem claim_c6_exact_six_bytes_witness :
    MacAddress.parse_str ("12:34:56:ab:cd:e-".toList) =
      .error (.InvalidLength (utf8Len ("12:34:56:ab:cd:e-".toList))) :=
  (claim_c6_exact_six_bytes.2 ("12:34:56:ab:cd:e-".toList)
      (Or.inr (by decide)) (by decide)).2.2
    5 [0x12, 0x34, 0x56, 0xAB, 0xCD, 0xE0] (by decide) (by decide)

/-- C9 counterexample: a 14-character input of twelve hex digits and two
separators, without a `0x` prefix, on which `parse_str` does not succeed:
both separators sit after the twelfth digit, so the full-buffer guard
fires on the first of them and the parse fails with `InvalidLength 14`. -/
theorem claim_c9_counterexample :
    ("112233445566:-".toList).length = 14 ∧
    (∀ c ∈ ("112233445566:-".toList), isHexDigit c = true ∨ isSep c = true) ∧
    (("112233445566:-".toList).filter (fun c => isHexDigit c)).length = 12 ∧
    ("112233445566:-".toList).get ⟨1, by decide⟩ ≠ 'x' ∧
    ("112233445566:-".toList).get ⟨1, by decide⟩ ≠ 'X' ∧
    MacAddress.parse_str ("112233445566:-".toList) =
      .error (.InvalidLength 14) := by decide

/-- C9 (amended): a 14-character string of twelve hex digits and two
separators with no `0x` prefix parses to the six bytes formed by the
twelve digits in order, provided its last character is a hex digit
(equivalently, no separator follows the twelfth digit; otherwise the
full-buffer guard fails the parse with `InvalidLength 14`, as the
counterexample shows). -/
theorem claim_c9_separator_placement (s : List Char)
    (hlen : s.length = 14)
    (hgood : ∀ c ∈ s, isHexDigit c = true ∨ isSep c = true)
    (hd : (s.filter (fun c => isHexDigit c)).length = 12)
    (hlast : ∀ h : s ≠ [], isHexDigit (s.getLast h) = true) :
    MacAddress.parse_str s =
      .ok (MacAddress.new (pairBytes (s.filter (fun c => isHexDigit c)))) := by
  have hsize : ∀ c ∈ s, c.utf8Size = 1 := by
    intro c hc
    rcases hgood c hc with h | h
    · exact isHexDigit_utf8Size h
    · exact isSep_utf8Size h
  have hulen : utf8Len s = 14 := by rw [utf8Len_eq_length hsize, hlen]
  have hloop := parseLoop_ok_of_digits s (utf8Len s) 0 0 false
      (List.replicate 6 0) hgood (by simpa using hd) hlast
  simp only [MacAddress.parse_str, EUI48LEN]
  rw [if_pos (Or.inl hulen)]
  rw [hloop]
  rw [writeDigits_eq_pairBytes _ hd]
  simp

theorem claim_c9_separator_placement_witness :
    MacAddress.parse_str ("12:34:56ABCDEF".toList) =
      .ok (MacAddress.new (pairBytes
        (("12:34:56ABCDEF".toList).filter (fun c => isHexDigit c)))) :=
  claim_c9_separator_placement ("12:34:56ABCDEF".toList)
    (by decide) (by decide) (by decide)
    (fun h => by
      have e : ("12:34:56ABCDEF".toList).getLast h = 'F' := rfl
      rw [e]
      decide)

theorem hexDigitChar_isLower {n : Nat} (h : n < 16) :
    isLowerHexChar (hexDigitChar n) = true := hexDigitChar_lower h

/-- C7: each formatter is total, renders every byte as two lowercase
zero-padded hex digits, and produces its fixed pattern: 17 characters for
the dash and colon forms, 14 for the dot and `0x` forms, drawn from the
lowercase hex alphabet plus the notation's separator or prefix; on bytes
`12 34 56 AB CD EF` the four renderings are the expected strings. -/
theorem claim_c7_formatters (b0 b1 b2 b3 b4 b5 : Nat)
    (h0 : b0 < 256) (h1 : b1 < 256) (h2 : b2 < 256)
    (h3 : b3 < 256) (h4 : b4 < 256) (h5 : b5 < 256) :
    ((MacAddress.new [b0, b1, b2, b3, b4, b5]).to_canonical.length = 17 ∧
     ∀ c ∈ (MacAddress.new [b0, b1, b2, b3, b4, b5]).to_canonical,
       isLowerHexChar c = true ∨ c = '-') ∧
    ((MacAddress.new [b0, b1, b2, b3, b4, b5]).to_hex_string.length = 17 ∧
     ∀ c ∈ (MacAddress.new [b0, b1, b2, b3, b4, b5]).to_hex_string,
       isLowerHexChar c = true ∨ c = ':') ∧
    ((MacAddress.new [b0, b1, b2, b3, b4, b5]).to_dot_string.length = 14 ∧
     ∀ c ∈ (MacAddress.new [b0, b1, b2, b3, b4, b5]).to_dot_string,
       isLowerHexChar c = true ∨ c = '.') ∧
    ((MacAddress.new [b0, b1, b2, b3, b4, b5]).to_hexadecimal.length = 14 ∧
     ∀ c ∈ (MacAddress.new [b0, b1, b2, b3, b4, b5]).to_hexadecimal,
       isLowerHexChar c = true ∨ c = 'x') ∧
    (∀ b : Nat, b < 256 → (byteToHex b).length = 2 ∧
      ∀ c ∈ byteToHex b, isLowerHexChar c = true) ∧
    (MacAddress.new [0x12, 0x34, 0x56, 0xAB, 0xCD, 0xEF]).to_canonical =
      "12-34-56-ab-cd-ef".toList ∧
    (MacAddress.new [0x12, 0x34, 0x56, 0xAB, 0xCD, 0xEF]).to_hex_string =
      "12:34:56:ab:cd:ef".toList ∧
    (MacAddress.new [0x12, 0x34, 0x56, 0xAB, 0xCD, 0xEF]).to_dot_string =
      "1234.56ab.cdef".toList ∧
    (MacAddress.new [0x12, 0x34, 0x56, 0xAB, 0xCD, 0xEF]).to_hexadecimal =
      "0x123456abcdef".toList := by
  have l0h : isLowerHexChar (hexDigitChar (b0 / 16)) = true :=
    hexDigitChar_isLower (by omega)
  have l0l : isLowerHexChar (hexDigitChar (b0 % 16)) = true :=
    hexDigitChar_isLower (by omega)
  have l1h : isLowerHexChar (hexDigitChar (b1 / 16)) = true :=
    hexDigitChar_isLower (by omega)
  have l1l : isLowerHexChar (hexDigitChar (b1 % 16)) = true :=
    hexDigitChar_isLower (by omega)
  have l2h : isLowerHexChar (hexDigitChar (b2 / 16)) = true :=
    hexDigitChar_isLower (by omega)
  have l2l : isLowerHexChar (hexDigitChar (b2 % 16)) = true :=
    hexDigitChar_isLower (by omega)
  have l3h : isLowerHexChar (hexDigitChar (b3 / 16)) = true :=
    hexDigitChar_isLower (by omega)
  have l3l : isLowerHexChar (hexDigitChar (b3 % 16)) = true :=
    hexDigitChar_isLower (by omega)
  have l4h : isLowerHexChar (hexDigitChar (b4 / 16)) = true :=
    hexDigitChar_isLower (by omega)
  have l4l : isLowerHexChar (hexDigitChar (b4 % 16)) = true :=
    hexDigitChar_isLower (by omega)
  have l5h : isLowerHexChar (hexDigitChar (b5 / 16)) = true :=
    hexDigitChar_isLower (by omega)
  have l5l : isLowerHexChar (hexDigitChar (b5 % 16)) = true :=
    hexDigitChar_isLower (by omega)
  have e_can : (MacAddress.new [b0, b1, b2, b3, b4, b5]).to_canonical =
      [hexDigitChar (b0 / 16), hexDigitChar (b0 % 16), '-',
       hexDigitChar (b1 / 16), hexDigitChar (b1 % 16), '-',
       hexDigitChar (b2 / 16), hexDigitChar (b2 % 16), '-',
       hexDigitChar (b3 / 16), hexDigitChar (b3 % 16), '-',
       hexDigitChar (b4 / 16), hexDigitChar (b4 % 16), '-',
       hexDigitChar (b5 / 16), hexDigitChar (b5 % 16)] := by
    simp [MacAddress.to_canonical, MacAddress.new, byteToHex]
  have e_hex : (MacAddress.new [b0, b1, b2, b3, b4, b5]).to_hex_string =
      [hexDigitChar (b0 / 16), hexDigitChar (b0 % 16), ':',
       hexDigitChar (b1 / 16), hexDigitChar (b1 % 16), ':',
       hexDigitChar (b2 / 16), hexDigitChar (b2 % 16), ':',
       hexDigitChar (b3 / 16), hexDigitChar (b3 % 16), ':',
       hexDigitChar (b4 / 16), hexDigitChar (b4 % 16), ':',
       hexDigitChar (b5 / 16), hexDigitChar (b5 % 16)] := by
    simp [MacAddress.to_hex_string, MacAddress.new, byteToHex]
  have e_dot : (MacAddress.new [b0, b1, b2, b3, b4, b5]).to_dot_string =
      [hexDigitChar (b0 / 16), hexDigitChar (b0 % 16),
       hexDigitChar (b1 / 16), hexDigitChar (b1 % 16), '.',
       hexDigitChar (b2 / 16), hexDigitChar (b2 % 16),
       hexDigitChar (b3 / 16), hexDigitChar (b3 % 16), '.',
       hexDigitChar (b4 / 16), hexDigitChar (b4 % 16),
       hexDigitChar (b5 / 16), hexDigitChar (b5 % 16)] := by
    simp [MacAddress.to_dot_string, MacAddress.new, byteToHex]
  have e_hexa : (MacAddress.new [b0, b1, b2, b3, b4, b5]).to_hexadecimal =
      ['0', 'x',
       hexDigitChar (b0 / 16), hexDigitChar (b0 % 16),
       hexDigitChar (b1 / 16), hexDigitChar (b1 % 16),
       hexDigitChar (b2 / 16), hexDigitChar (b2 % 16),
       hexDigitChar (b3 / 16), hexDigitChar (b3 % 16),
       hexDigitChar (b4 / 16), hexDigitChar (b4 % 16),
       hexDigitChar (b5 / 16), hexDigitChar (b5 % 16)] := by
    simp [MacAddress.to_hexadecimal, MacAddress.new, byteToHex]
  refine ⟨⟨?_, ?_⟩, ⟨?_, ?_⟩, ⟨?_, ?_⟩, ⟨?_, ?_⟩, ?_,
    by decide, by decide, by decide, by decide⟩
  · rw [e_can]
    rfl
  · rw [e_can]
    simp only [List.forall_mem_cons]
    exact ⟨Or.inl l0h, Or.inl l0l, Or.inr trivial, Or.inl l1h, Or.inl l1l,
      Or.inr trivial, Or.inl l2h, Or.inl l2l, Or.inr trivial, Or.inl l3h, Or.inl l3l,
      Or.inr trivial, Or.inl l4h, Or.inl l4l, Or.inr trivial, Or.inl l5h, Or.inl l5l,
      List.forall_mem_nil _⟩
  · rw [e_hex]
    rfl
  · rw [e_hex]
    simp only [List.forall_mem_cons]
    exact ⟨Or.inl l0h, Or.inl l0l, Or.inr trivial, Or.inl l1h, Or.inl l1l,
      Or.inr trivial, Or.inl l2h, Or.inl l2l, Or.inr trivial, Or.inl l3h, Or.inl l3l,
      Or.inr trivial, Or.inl l4h, Or.inl l4l, Or.inr trivial, Or.inl l5h, Or.inl l5l,
      List.forall_mem_nil _⟩
  · rw [e_dot]
    rfl
  · rw [e_dot]
    simp only [List.forall_mem_cons]
    exact ⟨Or.inl l0h, Or.inl l0l, Or.inl l1h, Or.inl l1l, Or.inr trivial,
      Or.inl l2h, Or.inl l2l, Or.inl l3h, Or.inl l3l, Or.inr trivial,
      Or.inl l4h, Or.inl l4l, Or.inl l5h, Or.inl l5l,
      List.forall_mem_nil _⟩
  · rw [e_hexa]
    rfl
  · rw [e_hexa]
    simp only [List.forall_mem_cons]
    exact ⟨Or.inl (by decide), Or.inr trivial, Or.inl l0h, Or.inl l0l,
      Or.inl l1h, Or.inl l1l, Or.inl l2h, Or.inl l2l, Or.inl l3h, Or.inl l3l,
      Or.inl l4h, Or.inl l4l, Or.inl l5h, Or.inl l5l,
      List.forall_mem_nil _⟩
  · intro b hb
    refine ⟨rfl, ?_⟩
    simp only [byteToHex, List.forall_mem_cons]
    exact ⟨hexDigitChar_isLower (by omega), hexDigitChar_isLower (by omega),
      List.forall_mem_nil _⟩

theorem claim_c7_formatters_witness :
    (MacAddress.new [0x12, 0x34, 0x56, 0xAB, 0xCD, 0xEF]).to_canonical.length = 17 :=
  (claim_c7_formatters 0x12 0x34 0x56 0xAB 0xCD 0xEF (by decide) (by decide)
    (by decide) (by decide) (by decide) (by decide)).1.1
